import Mathlib

/-!
Verification of the `SolverHighs` adapter (`src/mip/highs.py`), a thin
binding from the python-mip `Solver` contract onto the HiGHS C API.

The embedding models:
* the native HiGHS model state reachable through the foreign calls the
  adapter uses (columns with bounds/cost/integrality, rows with bounds and
  a sparse coefficient list, objective offset and sense) — the native
  library itself is third-party code not in this repository, so those
  calls are modelled from the spec's foreign-function contract table;
* the adapter state: the native handle plus the name registries
  (`_var_name`, `_var_col`, `_cons_name`, `_cons_col`);
* each adapter method used by the claims, translated line by line from
  `src/mip/highs.py`.  Python exceptions (KeyError on a dict lookup,
  AssertionError, IndexError, NotImplementedError, the constructor's
  FileNotFoundError) become `Option`/`Except` results.

Real numbers crossing the FFI boundary are modelled as rationals extended
with the two infinities (`mip.INF` is `float("inf")`).
-/

namespace PyMipHighs

/-- A C `double` value as used by the adapter: a finite rational or one of
the two infinities (`mip.INF` / `-mip.INF`). -/
inductive HVal where
  | num (q : ℚ)
  | posInf
  | negInf
deriving DecidableEq, Repr

/-- Native constant `kHighsObjSenseMinimize = 1` (header, line 50). -/
def kHighsObjSenseMinimize : Int := 1

/-- Native constant `kHighsObjSenseMaximize = -1` (header, line 51). -/
def kHighsObjSenseMaximize : Int := -1

/-- Native constant `kHighsVarTypeContinuous = 0` (header, line 53). -/
def kHighsVarTypeContinuous : Int := 0

/-- Native constant `kHighsVarTypeInteger = 1` (header, line 54). -/
def kHighsVarTypeInteger : Int := 1

/-- The front-end's sense vocabulary: the relational senses of a
constraint expression (`mip.LESS_OR_EQUAL`, `mip.GREATER_OR_EQUAL`,
`mip.EQUAL`) and the objective senses (`mip.MINIMIZE`, `mip.MAXIMIZE`).
In Python these are distinct string constants; a `LinExpr.sense` field may
hold any of them. -/
inductive Sense where
  | le
  | ge
  | eq
  | minimize
  | maximize
deriving DecidableEq, Repr

/-- Front-end variable kinds (`mip.CONTINUOUS`, `mip.BINARY`,
`mip.INTEGER`); `add_var` only tests `var_type != mip.CONTINUOUS`. -/
inductive VarType where
  | continuous
  | binary
  | integer
deriving DecidableEq, Repr

/-- One column of the native model: bounds, objective cost, integrality
kind (one of the `kHighsVarType*` constants). -/
structure Col where
  lower : HVal
  upper : HVal
  cost : ℚ
  integrality : Int
deriving DecidableEq, Repr

/-- One row of the native model: the two-sided bounds and the sparse
coefficient arrays exactly as marshalled into `Highs_addRow`. -/
structure Row where
  lower : HVal
  upper : HVal
  index : List Nat
  value : List ℚ
deriving DecidableEq, Repr

/-- The native HiGHS model state reachable through the foreign calls the
adapter uses. -/
structure Highs where
  cols : List Col
  rows : List Row
  objOffset : ℚ
  objSense : Int
deriving DecidableEq, Repr

/-- Modelled from the spec: native `Highs_create` — a fresh empty model
(HiGHS default sense is minimize). -/
def Highs_create : Highs :=
  { cols := [], rows := [], objOffset := 0, objSense := kHighsObjSenseMinimize }

/-- Modelled from the spec: native `Highs_addVar` appends one column with
the given bounds, zero cost and continuous integrality. -/
def Highs_addVar (h : Highs) (lower upper : HVal) : Highs :=
  { h with cols := h.cols ++ [⟨lower, upper, 0, kHighsVarTypeContinuous⟩] }

/-- Modelled from the spec: native `Highs_changeColCost` sets one column's
cost; an out-of-range column index is an error status (which the adapter
discards), leaving the model unchanged. -/
def Highs_changeColCost (h : Highs) (col : Nat) (cost : ℚ) : Highs :=
  match h.cols[col]? with
  | some c => { h with cols := h.cols.set col { c with cost := cost } }
  | none => h

/-- Modelled from the spec: native `Highs_changeColIntegrality` sets one
column's integrality kind; out of range is a discarded error status. -/
def Highs_changeColIntegrality (h : Highs) (col : Nat) (integrality : Int) : Highs :=
  match h.cols[col]? with
  | some c => { h with cols := h.cols.set col { c with integrality := integrality } }
  | none => h

/-- Map a function receiving the element's position over a list, starting
at position `i`.  Used to model the by-range bulk native calls. -/
def mapFrom (f : Nat → Col → Col) : Nat → List Col → List Col
  | _, [] => []
  | i, c :: cs => f i c :: mapFrom f (i + 1) cs

/-- Modelled from the spec: native `Highs_changeColsIntegralityByRange`
sets the integrality of every column with position in
`[fromCol, toCol]` to the corresponding entry of `integrality` (entry
`position - fromCol`); columns outside the range are untouched. -/
def Highs_changeColsIntegralityByRange (h : Highs) (fromCol toCol : Int)
    (integrality : List Int) : Highs :=
  { h with cols := mapFrom (fun i c =>
      if fromCol ≤ (i : Int) ∧ (i : Int) ≤ toCol then
        { c with integrality := integrality.getD ((i : Int) - fromCol).toNat c.integrality }
      else c) 0 h.cols }

/-- Modelled from the spec: native `Highs_addRow` appends one row with the
given bounds and sparse coefficient arrays. -/
def Highs_addRow (h : Highs) (lower upper : HVal) (index : List Nat)
    (value : List ℚ) : Highs :=
  { h with rows := h.rows ++ [⟨lower, upper, index, value⟩] }

/-- Modelled from the spec: native `Highs_changeObjectiveOffset`. -/
def Highs_changeObjectiveOffset (h : Highs) (offset : ℚ) : Highs :=
  { h with objOffset := offset }

/-- Modelled from the spec: native `Highs_changeObjectiveSense`. -/
def Highs_changeObjectiveSense (h : Highs) (sense : Int) : Highs :=
  { h with objSense := sense }

/-- Modelled from the spec: native `Highs_getNumCol`. -/
def Highs_getNumCol (h : Highs) : Nat := h.cols.length

/-- Modelled from the spec: native `Highs_getNumRow`. -/
def Highs_getNumRow (h : Highs) : Nat := h.rows.length

/-- Modelled from the spec: native `Highs_getObjectiveOffset`. -/
def Highs_getObjectiveOffset (h : Highs) : ℚ := h.objOffset

/-- Modelled from the spec: native `Highs_getObjectiveSense`. -/
def Highs_getObjectiveSense (h : Highs) : Int := h.objSense

/-- Modelled from the spec: the `costs` array filled by
`Highs_getColsByRange` when the adapter queries the full column range
`0 .. num_cols - 1` (as `get_objective` does). -/
def Highs_getColsByRange_costs (h : Highs) : List ℚ := h.cols.map Col.cost

/-- The cost of column `j` in the native model (0 when out of range);
used to state properties of the cost vector. -/
def colCost (h : Highs) (j : Nat) : ℚ := ((h.cols[j]?).map Col.cost).getD 0

/-- A front-end linear expression as the adapter consumes it: the
coefficient dict keyed by the variable's column index (`var.idx`), the
constant, and the relational/objective sense. -/
structure LinExpr where
  expr : List (Nat × ℚ)
  const : ℚ
  sense : Sense
deriving DecidableEq, Repr

/-- Coefficient of the variable with column index `j` in an expression
(0 when absent), i.e. the dict lookup `lin_expr.expr.get(var, 0)`. -/
def LinExpr.coef (e : LinExpr) (j : Nat) : ℚ := (e.expr.lookup j).getD 0

/-- Python dict assignment `d[k] = v`: overwrite the value in place when
the key is present, append otherwise. -/
def dictInsert (d : List (String × Nat)) (k : String) (v : Nat) : List (String × Nat) :=
  match d with
  | [] => [(k, v)]
  | (k₁, v₁) :: rest => if k₁ = k then (k, v) :: rest else (k₁, v₁) :: dictInsert rest k v

/-- Python dict lookup `d[k]`; `none` is a KeyError. -/
def dictGet : List (String × Nat) → String → Option Nat
  | [], _ => none
  | (k₁, v₁) :: rest, k => if k₁ = k then some v₁ else dictGet rest k

/-- Error raised by an adapter operation, as the caller observes it. -/
inductive PyError where
  | fileNotFound (msg : String)
  | keyError
  | notImplemented
  | assertionError
deriving DecidableEq, Repr

/-- The adapter state: the native model handle plus the local bookkeeping
registries (`highs.py`, lines 124-132). -/
structure SolverHighs where
  hmodel : Highs
  name : String
  var_name : List String
  var_col : List (String × Nat)
  cons_name : List String
  cons_col : List (String × Nat)
deriving DecidableEq, Repr

/-- The `sense_map` of `set_objective_sense` (lines 300-303): front-end
sense → native signed constant; any other key is a KeyError (`none`). -/
def senseToNative (s : Sense) : Option Int :=
  match s with
  | .maximize => some kHighsObjSenseMaximize
  | .minimize => some kHighsObjSenseMinimize
  | _ => none

/-- The `sense_map` of `get_objective_sense` (lines 293-296): native
signed constant → front-end sense; any other key is a KeyError. -/
def senseFromNative (i : Int) : Option Sense :=
  if i = kHighsObjSenseMaximize then some .maximize
  else if i = kHighsObjSenseMinimize then some .minimize
  else none

/-- `num_cols` (lines 363-364). -/
def SolverHighs.num_cols (s : SolverHighs) : Nat := Highs_getNumCol s.hmodel

/-- `num_rows` (lines 366-367). -/
def SolverHighs.num_rows (s : SolverHighs) : Nat := Highs_getNumRow s.hmodel

/-- `set_objective_sense` (lines 299-304); `none` is the KeyError raised
when the argument is not in the mapping table. -/
def SolverHighs.set_objective_sense (s : SolverHighs) (sense : Sense) : Option SolverHighs :=
  (senseToNative sense).map fun i =>
    { s with hmodel := Highs_changeObjectiveSense s.hmodel i }

/-- `get_objective_sense` (lines 290-297). -/
def SolverHighs.get_objective_sense (s : SolverHighs) : Option Sense :=
  senseFromNative (Highs_getObjectiveSense s.hmodel)

/-- The message of the FileNotFoundError raised in `__init__` (lines
111-115); the Python source concatenates the three adjacent string
literals with no separating spaces. -/
def highsNotFoundMsg : String :=
  "HiGHS not found.Please install the `highspy` package, orset the `PMIP_HIGHS_LIBRARY` environment variable."

/-- `SolverHighs.__init__` (lines 109-132): fails immediately when the
library was not loaded; otherwise creates the native model, sets the
objective sense from the constructor argument, and initialises the empty
registries.  An error means the caller receives no adapter object. -/
def SolverHighs.init (hasHighs : Bool) (name : String) (sense : Sense) :
    Except PyError SolverHighs :=
  if !hasHighs then .error (.fileNotFound highsNotFoundMsg)
  else
    let s : SolverHighs :=
      { hmodel := Highs_create, name := name, var_name := [], var_col := [],
        cons_name := [], cons_col := [] }
    match s.set_objective_sense sense with
    | some s₁ => .ok s₁
    | none => .error .keyError

/-- Substring occurrence on character lists: `hasPrefixChars sub l` holds
when `l` starts with `sub`. -/
def hasPrefixChars : List Char → List Char → Bool
  | [], _ => true
  | _ :: _, [] => false
  | a :: as, b :: bs => a = b && hasPrefixChars as bs

/-- Substring occurrence on character lists. -/
def hasSubChars (sub : List Char) : List Char → Bool
  | [] => sub.isEmpty
  | c :: cs => hasPrefixChars sub (c :: cs) || hasSubChars sub cs

/-- The Python substring test `sub in s` (used by line 32 and to state
that an error message mentions a remediation path). -/
def mentionsStr (s sub : String) : Bool := hasSubChars sub.toList s.toList

/-- Python `str.lower()` (line 32), character by character. -/
def lowerStr (s : String) : String := String.mk (s.toList.map Char.toLower)

/-- The body of the module-level `try` block (lines 20-42), which
locates the library file: prefer the `PMIP_HIGHS_LIBRARY` override when
the environment has one (lines 22-24); otherwise import `highspy` and
take its directory (lines 27-29, import failure is an exception), require
a linux platform (lines 32-35, otherwise NotImplementedError), and
destructure the glob of `highs_bindings.*.so` under the package path into
exactly one match (line 38, otherwise the unpacking ValueError).  The
OS-dependent outcomes — the environment variable's contents, the import,
and the glob matches — are the inputs `envOverride`, `highspyPath` and
`glob`; errors carry the Python exception's message. -/
def resolveLibfile (envOverride : Option String) (highspyPath : Except String String)
    (platform : String) (glob : String → List String) : Except String String :=
  match envOverride with
  | some libfile => .ok libfile
  | none =>
    match highspyPath with
    | .error e => .error e
    | .ok pkg_path =>
      if mentionsStr (lowerStr platform) "linux" then
        match glob (pkg_path ++ "/" ++ "highs_bindings.*.so") with
        | [libfile] => .ok libfile
        | _ => .error "ValueError: expected exactly one matching library"
      else .error (platform ++ " not supported!")

/-- The whole `try` body (lines 20-42): resolve the library file, then
`ffi.dlopen` it (line 41, whose OS-dependent outcome is the input
`dlopen`).  An error is the exception reaching the `except` clause. -/
def libraryLoadBody (envOverride : Option String) (highspyPath : Except String String)
    (platform : String) (glob : String → List String)
    (dlopen : String → Except String Unit) : Except String Unit :=
  (resolveLibfile envOverride highspyPath platform glob).bind dlopen

/-- The `except` clause (lines 43-45): any exception from the body is
logged and recorded as `has_highs = false`; success sets it true (line
42).  Either way the module import completes with a Bool. -/
def has_highs_flag (r : Except String Unit) : Bool :=
  match r with
  | .ok _ => true
  | .error _ => false

/-- `add_var` (lines 151-172): reads the native column count as the new
column's index, appends a native column with the given bounds, sets its
cost, marks integrality when the kind is not continuous, then records the
name in both registries.  Never fails. -/
def SolverHighs.add_var (s : SolverHighs) (obj : ℚ) (lb ub : HVal)
    (var_type : VarType) (name : String) : SolverHighs :=
  let col : Nat := s.num_cols
  let h₁ := Highs_addVar s.hmodel lb ub
  let h₂ := Highs_changeColCost h₁ col obj
  let h₃ := if var_type ≠ .continuous
    then Highs_changeColIntegrality h₂ col kHighsVarTypeInteger
    else h₂
  { s with hmodel := h₃,
           var_name := s.var_name ++ [name],
           var_col := dictInsert s.var_col name col }

/-- `add_constr` (lines 174-197): translates the relational sense into a
two-sided bound pair, marshals the sparse coefficient arrays, appends the
native row, and records the name.  `none` is the AssertionError raised
when the sense is none of ≤, ≥, =. -/
def SolverHighs.add_constr (s : SolverHighs) (lin_expr : LinExpr) (name : String) :
    Option SolverHighs :=
  let row : Nat := s.num_rows
  let bounds : Option (HVal × HVal) :=
    match lin_expr.sense with
    | .le => some (.negInf, .num (-lin_expr.const))
    | .ge => some (.num (-lin_expr.const), .posInf)
    | .eq => some (.num (-lin_expr.const), .num (-lin_expr.const))
    | _ => none
  bounds.map fun b =>
    let h₁ := Highs_addRow s.hmodel b.1 b.2
      (lin_expr.expr.map Prod.fst) (lin_expr.expr.map Prod.snd)
    { s with hmodel := h₁,
             cons_name := s.cons_name ++ [name],
             cons_col := dictInsert s.cons_col name row }

/-- `add_lazy_constr` (lines 199-200): unconditional NotImplementedError. -/
def SolverHighs.add_lazy_constr (s : SolverHighs) (lin_expr : LinExpr) :
    Except PyError SolverHighs := .error .notImplemented

/-- `add_sos` (lines 202-207): unconditional NotImplementedError. -/
def SolverHighs.add_sos (s : SolverHighs) (sos : List (Nat × ℚ)) (sos_type : Int) :
    Except PyError SolverHighs := .error .notImplemented

/-- `add_cut` (lines 209-210): unconditional NotImplementedError. -/
def SolverHighs.add_cut (s : SolverHighs) (lin_expr : LinExpr) :
    Except PyError SolverHighs := .error .notImplemented

/-- `get_objective_const` (lines 242-245). -/
def SolverHighs.get_objective_const (s : SolverHighs) : ℚ :=
  Highs_getObjectiveOffset s.hmodel

/-- `get_objective` (lines 215-240): queries all column costs, rebuilds
the expression from the nonzero ones (`xsum` keyed by column index), adds
the stored offset, and sets the sense read from the native model (`none`
is that read's KeyError). -/
def SolverHighs.get_objective (s : SolverHighs) : Option LinExpr :=
  let n := s.num_cols
  let costs := Highs_getColsByRange_costs s.hmodel
  (s.get_objective_sense).map fun sense =>
    { expr := (List.range n).filterMap fun i =>
        if costs.getD i 0 = 0 then none else some (i, costs.getD i 0),
      const := s.get_objective_const,
      sense := sense }

/-- `set_objective_const` (lines 317-318). -/
def SolverHighs.set_objective_const (s : SolverHighs) (const : ℚ) : SolverHighs :=
  { s with hmodel := Highs_changeObjectiveOffset s.hmodel const }

/-- The coefficient loop of `set_objective` (lines 311-312): one
`Highs_changeColCost` per entry of the expression's coefficient dict. -/
def writeCosts (h : Highs) (l : List (Nat × ℚ)) : Highs :=
  l.foldl (fun acc p => Highs_changeColCost acc p.1 p.2) h

/-- `set_objective` (lines 309-315): per-column cost updates for the
expression's coefficients, then the constant offset, then the sense
(`none` is the sense table's KeyError). -/
def SolverHighs.set_objective (s : SolverHighs) (lin_expr : LinExpr) :
    Option SolverHighs :=
  let s₁ := { s with hmodel := writeCosts s.hmodel lin_expr.expr }
  let s₂ := s₁.set_objective_const lin_expr.const
  s₂.set_objective_sense lin_expr.sense

/-- `relax` (lines 247-255): one bulk native call rewriting the
integrality of columns `0 .. n-1` to continuous. -/
def SolverHighs.relax (s : SolverHighs) : SolverHighs :=
  let n := s.num_cols
  let integrality := List.replicate n kHighsVarTypeContinuous
  let h₁ := Highs_changeColsIntegralityByRange s.hmodel 0 ((n : Int) - 1) integrality
  { s with hmodel := h₁ }

/-- `var_get_name` (lines 485-486): list indexing; `none` is the
IndexError. -/
def SolverHighs.var_get_name (s : SolverHighs) (idx : Nat) : Option String :=
  s.var_name[idx]?

/-- `var_get_index` (lines 491-492): dict lookup; `none` is the
KeyError. -/
def SolverHighs.var_get_index (s : SolverHighs) (name : String) : Option Nat :=
  dictGet s.var_col name

/-- One addition operation of the claims' sequences. -/
inductive Op where
  | addVar (obj : ℚ) (lb ub : HVal) (var_type : VarType) (name : String)
  | addConstr (lin_expr : LinExpr) (name : String)
deriving DecidableEq, Repr

/-- Run one addition on the adapter. -/
def applyOp (s : SolverHighs) : Op → Option SolverHighs
  | .addVar obj lb ub vt name => some (s.add_var obj lb ub vt name)
  | .addConstr e name => s.add_constr e name

/-- Run a sequence of additions on the adapter, stopping at the first
raised exception. -/
def runOps (s : SolverHighs) : List Op → Option SolverHighs
  | [] => some s
  | op :: ops => (applyOp s op).bind fun s₁ => runOps s₁ ops

/-- The arguments of one `add_var` call. -/
structure AddVarArgs where
  obj : ℚ
  lb : HVal
  ub : HVal
  var_type : VarType
  name : String
deriving DecidableEq, Repr

/-- Run a sequence of `add_var` calls. -/
def runAddVars (s : SolverHighs) (l : List AddVarArgs) : SolverHighs :=
  l.foldl (fun acc a => acc.add_var a.obj a.lb a.ub a.var_type a.name) s

/-- The registries are in sync with the native counts (spec §3). -/
def RegistrySync (s : SolverHighs) : Prop :=
  s.var_name.length = s.num_cols ∧ s.cons_name.length = s.num_rows

/-! ### Helper lemmas about the native-call model -/

theorem dictGet_dictInsert_self (d : List (String × Nat)) (k : String) (v : Nat) :
    dictGet (dictInsert d k v) k = some v := by
  induction d with
  | nil => simp [dictInsert, dictGet]
  | cons p rest ih =>
    rcases p with ⟨k₁, v₁⟩
    by_cases hk : k₁ = k <;> simp [dictInsert, dictGet, hk, ih]

theorem dictGet_dictInsert_ne (d : List (String × Nat)) (k k₁ : String) (v : Nat)
    (hk : k₁ ≠ k) : dictGet (dictInsert d k v) k₁ = dictGet d k₁ := by
  induction d with
  | nil => simp [dictInsert, dictGet, hk.symm]
  | cons p rest ih =>
    rcases p with ⟨k₂, v₂⟩
    by_cases hk₂ : k₂ = k <;>
      by_cases hk₁ : k₂ = k₁ <;>
      simp_all [dictInsert, dictGet]

theorem cols_length_changeColCost (h : Highs) (col : Nat) (cost : ℚ) :
    (Highs_changeColCost h col cost).cols.length = h.cols.length := by
  rcases hc : h.cols[col]? with _ | c <;> simp [Highs_changeColCost, hc]

theorem rows_changeColCost (h : Highs) (col : Nat) (cost : ℚ) :
    (Highs_changeColCost h col cost).rows = h.rows := by
  rcases hc : h.cols[col]? with _ | c <;> simp [Highs_changeColCost, hc]

theorem cols_length_changeColIntegrality (h : Highs) (col : Nat) (integ : Int) :
    (Highs_changeColIntegrality h col integ).cols.length = h.cols.length := by
  rcases hc : h.cols[col]? with _ | c <;> simp [Highs_changeColIntegrality, hc]

theorem rows_changeColIntegrality (h : Highs) (col : Nat) (integ : Int) :
    (Highs_changeColIntegrality h col integ).rows = h.rows := by
  rcases hc : h.cols[col]? with _ | c <;> simp [Highs_changeColIntegrality, hc]

theorem add_var_var_name (s : SolverHighs) (obj : ℚ) (lb ub : HVal)
    (vt : VarType) (nm : String) :
    (s.add_var obj lb ub vt nm).var_name = s.var_name ++ [nm] := rfl

theorem add_var_var_col (s : SolverHighs) (obj : ℚ) (lb ub : HVal)
    (vt : VarType) (nm : String) :
    (s.add_var obj lb ub vt nm).var_col = dictInsert s.var_col nm s.num_cols := rfl

theorem add_var_cons_name (s : SolverHighs) (obj : ℚ) (lb ub : HVal)
    (vt : VarType) (nm : String) :
    (s.add_var obj lb ub vt nm).cons_name = s.cons_name := rfl

theorem add_var_num_cols (s : SolverHighs) (obj : ℚ) (lb ub : HVal)
    (vt : VarType) (nm : String) :
    (s.add_var obj lb ub vt nm).num_cols = s.num_cols + 1 := by
  unfold SolverHighs.add_var
  by_cases hvt : vt ≠ VarType.continuous <;>
    simp [hvt, SolverHighs.num_cols, Highs_getNumCol, cols_length_changeColIntegrality,
      cols_length_changeColCost, Highs_addVar]

theorem add_var_num_rows (s : SolverHighs) (obj : ℚ) (lb ub : HVal)
    (vt : VarType) (nm : String) :
    (s.add_var obj lb ub vt nm).num_rows = s.num_rows := by
  unfold SolverHighs.add_var
  by_cases hvt : vt ≠ VarType.continuous <;>
    simp [hvt, SolverHighs.num_rows, Highs_getNumRow, rows_changeColIntegrality,
      rows_changeColCost, Highs_addVar]

theorem add_constr_shape (s : SolverHighs) (e : LinExpr) (nm : String)
    (s₁ : SolverHighs) (h : s.add_constr e nm = some s₁) :
    s₁.var_name = s.var_name ∧ s₁.var_col = s.var_col ∧ s₁.num_cols = s.num_cols ∧
    s₁.cons_name = s.cons_name ++ [nm] ∧ s₁.num_rows = s.num_rows + 1 := by
  rcases hs : e.sense <;>
    simp [SolverHighs.add_constr, hs] at h <;>
    simp [← h, SolverHighs.num_cols, SolverHighs.num_rows, Highs_getNumCol,
      Highs_getNumRow, Highs_addRow]

/-! ### Claim theorems (first batch) -/

/-- C9: the operations with no native equivalent — `add_lazy_constr`,
`add_sos`, `add_cut` — raise NotImplementedError for every input and
every adapter state; no successor state is ever produced, so the model is
left unchanged. -/
theorem unsupported_ops_raise (s : SolverHighs) (e : LinExpr)
    (sos : List (Nat × ℚ)) (sos_type : Int) :
    s.add_lazy_constr e = .error .notImplemented ∧
    s.add_sos sos sos_type = .error .notImplemented ∧
    s.add_cut e = .error .notImplemented ∧
    ∀ s₁ : SolverHighs, s.add_lazy_constr e ≠ .ok s₁ ∧
      s.add_sos sos sos_type ≠ .ok s₁ ∧ s.add_cut e ≠ .ok s₁ := by
  refine ⟨rfl, rfl, rfl, fun s₁ => ⟨?_, ?_, ?_⟩⟩ <;>
    simp [SolverHighs.add_lazy_constr, SolverHighs.add_sos, SolverHighs.add_cut]

/-- C6: setting the objective sense to minimize and reading it back
returns minimize, likewise for maximize, and the translation goes through
the explicit bidirectional mapping minimize ↔ 1, maximize ↔ -1. -/
theorem objective_sense_round_trip (s : SolverHighs) :
    (s.set_objective_sense .minimize).bind SolverHighs.get_objective_sense =
      some .minimize ∧
    (s.set_objective_sense .maximize).bind SolverHighs.get_objective_sense =
      some .maximize ∧
    senseToNative .minimize = some 1 ∧ senseToNative .maximize = some (-1) ∧
    senseFromNative 1 = some .minimize ∧ senseFromNative (-1) = some .maximize := by
  refine ⟨?_, ?_, rfl, rfl, ?_, ?_⟩ <;>
    simp [SolverHighs.set_objective_sense, SolverHighs.get_objective_sense,
      senseToNative, senseFromNative, Highs_changeObjectiveSense,
      Highs_getObjectiveSense, kHighsObjSenseMinimize, kHighsObjSenseMaximize]

/-- C2: the row bounds sent to the native add-row call are: equality →
lower = upper = negated constant; ≤ → lower = -∞, upper = negated
constant; ≥ → lower = negated constant, upper = +∞ (the sparse arrays
being the expression's indices and coefficients in dict order). -/
theorem add_constr_row_bounds (s : SolverHighs) (e : LinExpr) (nm : String) :
    (e.sense = .eq →
      (s.add_constr e nm).map (fun t => t.hmodel.rows) =
        some (s.hmodel.rows ++ [⟨.num (-e.const), .num (-e.const),
          e.expr.map Prod.fst, e.expr.map Prod.snd⟩])) ∧
    (e.sense = .le →
      (s.add_constr e nm).map (fun t => t.hmodel.rows) =
        some (s.hmodel.rows ++ [⟨.negInf, .num (-e.const),
          e.expr.map Prod.fst, e.expr.map Prod.snd⟩])) ∧
    (e.sense = .ge →
      (s.add_constr e nm).map (fun t => t.hmodel.rows) =
        some (s.hmodel.rows ++ [⟨.num (-e.const), .posInf,
          e.expr.map Prod.fst, e.expr.map Prod.snd⟩])) := by
  refine ⟨fun hs => ?_, fun hs => ?_, fun hs => ?_⟩ <;>
    simp [SolverHighs.add_constr, hs, Highs_addRow]

/-- C8: `add_var` performs no duplicate-name validation: re-adding an
already registered name still allocates a fresh native column, appends a
second entry to the ordered name list (so both entries remain), and makes
the name→index lookup resolve to the most recently allocated column. -/
theorem add_var_duplicate_name (s : SolverHighs) (obj : ℚ) (lb ub : HVal)
    (vt : VarType) (nm : String) (h : nm ∈ s.var_name) :
    (s.add_var obj lb ub vt nm).num_cols = s.num_cols + 1 ∧
    (s.add_var obj lb ub vt nm).var_name = s.var_name ++ [nm] ∧
    (s.add_var obj lb ub vt nm).var_name.count nm = s.var_name.count nm + 1 ∧
    2 ≤ (s.add_var obj lb ub vt nm).var_name.count nm ∧
    (s.add_var obj lb ub vt nm).var_get_index nm = some s.num_cols := by
  have hcount : 1 ≤ s.var_name.count nm := List.one_le_count_iff.mpr h
  have hc3 : (s.add_var obj lb ub vt nm).var_name.count nm =
      s.var_name.count nm + 1 := by
    rw [add_var_var_name]; simp
  refine ⟨add_var_num_cols s obj lb ub vt nm, add_var_var_name s obj lb ub vt nm,
    hc3, ?_, ?_⟩
  · rw [hc3]; omega
  · simp only [SolverHighs.var_get_index, add_var_var_col]
    exact dictGet_dictInsert_self s.var_col nm s.num_cols

theorem registrySync_applyOp (s s₁ : SolverHighs) (op : Op)
    (hs : RegistrySync s) (h : applyOp s op = some s₁) : RegistrySync s₁ := by
  rcases hs with ⟨hv, hc⟩
  cases op with
  | addVar obj lb ub vt nm =>
    simp [applyOp] at h
    subst h
    refine ⟨?_, ?_⟩
    · rw [add_var_var_name, add_var_num_cols]
      simp [hv]
    · rw [add_var_cons_name, add_var_num_rows]
      exact hc
  | addConstr e nm =>
    simp [applyOp] at h
    obtain ⟨h₁, h₂, h₃, h₄, h₅⟩ := add_constr_shape s e nm s₁ h
    refine ⟨by rw [h₁, h₃]; exact hv, by rw [h₄, h₅]; simp [hc]⟩

theorem registrySync_runOps (ops : List Op) : ∀ s t : SolverHighs,
    RegistrySync s → runOps s ops = some t → RegistrySync t := by
  induction ops with
  | nil => intro s t hs h; simp [runOps] at h; rwa [← h]
  | cons op rest ih =>
    intro s t hs h
    rcases hop : applyOp s op with _ | s₁
    · simp [runOps, hop] at h
    · simp only [runOps, hop, Option.some_bind] at h
      exact ih s₁ t (registrySync_applyOp s s₁ op hs hop) h

theorem init_ok_shape (hh : Bool) (nm : String) (sense : Sense) (s : SolverHighs)
    (h : SolverHighs.init hh nm sense = .ok s) :
    s.var_name = [] ∧ s.var_col = [] ∧ s.cons_name = [] ∧ s.cons_col = [] ∧
    s.hmodel.cols = [] ∧ s.hmodel.rows = [] := by
  cases hh with
  | false => simp [SolverHighs.init] at h
  | true =>
    rcases hv : senseToNative sense with _ | v <;>
      simp [SolverHighs.init, SolverHighs.set_objective_sense, hv] at h <;>
      simp [← h, Highs_changeObjectiveSense, Highs_create]

/-- C1: starting from a freshly constructed adapter, after any sequence
of `add_var` / `add_constr` calls the variable registry's length equals
the native column count and the constraint registry's length equals the
native row count (every intermediate state is the final state of some
prefix, so this covers "after each addition"). -/
theorem registry_length_matches_native_counts (nm : String) (sense : Sense)
    (s₀ t : SolverHighs) (ops : List Op)
    (hinit : SolverHighs.init true nm sense = .ok s₀)
    (hrun : runOps s₀ ops = some t) :
    t.var_name.length = t.num_cols ∧ t.cons_name.length = t.num_rows := by
  obtain ⟨h₁, _, h₃, _, h₅, h₆⟩ := init_ok_shape true nm sense s₀ hinit
  have hs : RegistrySync s₀ := by
    constructor <;>
      simp [h₁, h₃, SolverHighs.num_cols, SolverHighs.num_rows,
        Highs_getNumCol, Highs_getNumRow, h₅, h₆]
  exact registrySync_runOps ops s₀ t hs hrun

/-- C5: library resolution and loading, translated from the module-level
code (lines 18-45) with the OS-dependent outcomes as inputs.  The
environment override takes precedence; without it an import failure, a
non-linux platform, or a glob not matching exactly one file fails the
body, as does a failing `dlopen` of the resolved file (so neither the
override nor the bundled package yielded a loadable binary).  Every such
failure reaches the `except` clause and is recorded as `has_highs =
false` — the import completes instead of crashing.  With `has_highs`
false, adapter construction fails immediately with the FileNotFoundError
whose message names both remediation paths, so the caller never receives
a (partially initialized) adapter. -/
theorem library_load_failure_handling :
    (∀ (lib plat : String) (hp : Except String String) (glob : String → List String),
      resolveLibfile (some lib) hp plat glob = .ok lib) ∧
    (∀ (e plat : String) (glob : String → List String),
      resolveLibfile none (.error e) plat glob = .error e) ∧
    (∀ (p plat : String) (glob : String → List String),
      mentionsStr (lowerStr plat) "linux" = false →
      resolveLibfile none (.ok p) plat glob = .error (plat ++ " not supported!")) ∧
    (∀ (p plat lib : String) (glob : String → List String),
      mentionsStr (lowerStr plat) "linux" = true →
      glob (p ++ "/" ++ "highs_bindings.*.so") = [lib] →
      resolveLibfile none (.ok p) plat glob = .ok lib) ∧
    (∀ (p plat : String) (glob : String → List String),
      mentionsStr (lowerStr plat) "linux" = true →
      (glob (p ++ "/" ++ "highs_bindings.*.so")).length ≠ 1 →
      resolveLibfile none (.ok p) plat glob =
        .error "ValueError: expected exactly one matching library") ∧
    (∀ (lib e plat : String) (hp : Except String String)
       (glob : String → List String) (dlopen : String → Except String Unit),
      dlopen lib = .error e →
      libraryLoadBody (some lib) hp plat glob dlopen = .error e) ∧
    (∀ (envO : Option String) (hp : Except String String) (plat : String)
       (glob : String → List String) (dlopen : String → Except String Unit)
       (e : String),
      libraryLoadBody envO hp plat glob dlopen = .error e →
      has_highs_flag (libraryLoadBody envO hp plat glob dlopen) = false) ∧
    (∀ (b : Except String Unit) (nm : String) (sense : Sense),
      has_highs_flag b = false →
      SolverHighs.init (has_highs_flag b) nm sense =
        .error (.fileNotFound highsNotFoundMsg)) ∧
    mentionsStr highsNotFoundMsg "highspy" = true ∧
    mentionsStr highsNotFoundMsg "PMIP_HIGHS_LIBRARY" = true := by
  refine ⟨fun _ _ _ _ => rfl, fun _ _ _ => rfl, ?_, ?_, ?_, fun _ _ _ _ _ dl h => h,
    ?_, ?_, by decide, by decide⟩
  · intro p plat glob h
    simp [resolveLibfile, h]
  · intro p plat lib glob h₁ h₂
    simp [resolveLibfile, h₁, h₂]
  · intro p plat glob h₁ h₂
    rcases hg : glob (p ++ "/" ++ "highs_bindings.*.so") with _ | ⟨a, tail⟩
    · simp [resolveLibfile, h₁, hg]
    · rcases tail with _ | ⟨b, rest⟩
      · rw [hg] at h₂
        simp at h₂
      · simp [resolveLibfile, h₁, hg]
  · intro envO hp plat glob dl e h
    rw [h]
    rfl
  · intro b nm sense h
    rw [h]
    rfl

theorem getD_replicate_lt (n j : Nat) (v d : Int) (h : j < n) :
    (List.replicate n v).getD j d = v := by
  induction n generalizing j with
  | zero => omega
  | succ m ih =>
    cases j with
    | zero => rfl
    | succ k => simpa [List.replicate] using ih k (by omega)

theorem mapFrom_integrality_full (v : Int) (n : Nat) :
    ∀ (l : List Col) (i : Nat), i + l.length = n →
    mapFrom (fun j c =>
      if (0 : Int) ≤ (j : Int) ∧ (j : Int) ≤ (n : Int) - 1 then
        { c with integrality :=
          (List.replicate n v).getD (((j : Int) - 0).toNat) c.integrality }
      else c) i l = l.map (fun c => { c with integrality := v }) := by
  intro l
  induction l with
  | nil => intro i _; rfl
  | cons c cs ih =>
    intro i hi
    have hin : i < n := by simp at hi; omega
    have hcond : (0 : Int) ≤ (i : Int) ∧ (i : Int) ≤ (n : Int) - 1 := by
      constructor <;> omega
    have htoNat : (((i : Int) - 0).toNat) = i := by simp
    simp only [mapFrom, List.map]
    rw [if_pos hcond, htoNat, getD_replicate_lt n i v c.integrality hin]
    rw [ih (i + 1) (by simp at hi ⊢; omega)]

theorem relax_hmodel (s : SolverHighs) :
    (s.relax).hmodel = { s.hmodel with
      cols := s.hmodel.cols.map (fun c => { c with integrality := 0 }) } := by
  show Highs_changeColsIntegralityByRange s.hmodel 0 ((s.num_cols : Int) - 1)
      (List.replicate s.num_cols kHighsVarTypeContinuous) = _
  unfold Highs_changeColsIntegralityByRange
  rw [mapFrom_integrality_full kHighsVarTypeContinuous s.num_cols s.hmodel.cols 0
    (by simp [SolverHighs.num_cols, Highs_getNumCol])]
  rfl

/-- C4: `relax` rewrites every column's integrality kind to continuous
(also in a model with integer columns), and relaxing twice leaves the
adapter in exactly the state reached by relaxing once. -/
theorem relax_continuous_and_idempotent (s : SolverHighs) :
    (∀ c ∈ (s.relax).hmodel.cols, c.integrality = kHighsVarTypeContinuous) ∧
    (s.relax).relax = s.relax := by
  constructor
  · intro c hc
    rw [relax_hmodel] at hc
    simp only [List.mem_map] at hc
    obtain ⟨c₀, _, hc₀⟩ := hc
    rw [← hc₀]
    rfl
  · have h₁ := relax_hmodel (s.relax)
    have h₂ := relax_hmodel s
    have hcols : (s.relax).relax.hmodel = (s.relax).hmodel := by
      rw [h₁, h₂]
      simp [List.map_map]
    cases hsr : (s.relax).relax
    cases hr : s.relax
    have hrest : ((s.relax).relax).name = (s.relax).name ∧
        ((s.relax).relax).var_name = (s.relax).var_name ∧
        ((s.relax).relax).var_col = (s.relax).var_col ∧
        ((s.relax).relax).cons_name = (s.relax).cons_name ∧
        ((s.relax).relax).cons_col = (s.relax).cons_col := ⟨rfl, rfl, rfl, rfl, rfl⟩
    simp_all

theorem runAddVars_invariant (l : List AddVarArgs) :
    ∀ (s : SolverHighs) (done : List String),
    s.var_name = done →
    s.num_cols = done.length →
    (∀ (k : Nat) (nm : String), done[k]? = some nm → dictGet s.var_col nm = some k) →
    (done ++ l.map AddVarArgs.name).Nodup →
    (runAddVars s l).var_name = done ++ l.map AddVarArgs.name ∧
    (runAddVars s l).num_cols = done.length + l.length ∧
    (∀ (k : Nat) (nm : String), (done ++ l.map AddVarArgs.name)[k]? = some nm →
      dictGet (runAddVars s l).var_col nm = some k) := by
  induction l with
  | nil =>
    intro s done h₁ h₂ h₃ _
    refine ⟨by simpa [runAddVars] using h₁, by simpa [runAddVars] using h₂, ?_⟩
    intro k nm hk
    simp only [List.map_nil, List.append_nil] at hk
    exact h₃ k nm hk
  | cons a rest ih =>
    intro s done h₁ h₂ h₃ h₄
    have hstep : runAddVars s (a :: rest) =
        runAddVars (s.add_var a.obj a.lb a.ub a.var_type a.name) rest := rfl
    have hnotdone : a.name ∉ done := by
      rw [List.map_cons, List.nodup_append] at h₄
      exact fun hmem => h₄.2.2 hmem (List.mem_cons_self a.name _)
    have hd₁ : (s.add_var a.obj a.lb a.ub a.var_type a.name).var_name =
        done ++ [a.name] := by rw [add_var_var_name, h₁]
    have hd₂ : (s.add_var a.obj a.lb a.ub a.var_type a.name).num_cols =
        (done ++ [a.name]).length := by
      rw [add_var_num_cols, h₂]; simp
    have hd₃ : ∀ (k : Nat) (nm : String), (done ++ [a.name])[k]? = some nm →
        dictGet (s.add_var a.obj a.lb a.ub a.var_type a.name).var_col nm = some k := by
      intro k nm hk
      rw [add_var_var_col, h₂]
      rw [List.getElem?_append] at hk
      by_cases hklt : k < done.length
      · rw [if_pos hklt] at hk
        have hmem : nm ∈ done := List.getElem?_mem hk
        have hne : nm ≠ a.name := fun he => hnotdone (he ▸ hmem)
        rw [dictGet_dictInsert_ne s.var_col a.name nm done.length hne]
        exact h₃ k nm hk
      · rw [if_neg hklt] at hk
        have hlt : k - done.length < 1 := by
          have hb := (List.getElem?_eq_some.mp hk).1
          simpa using hb
        have hkeq : k = done.length := by omega
        have hzero : k - done.length = 0 := by omega
        rw [hzero] at hk
        simp only [List.getElem?_cons_zero, Option.some.injEq] at hk
        rw [← hk, dictGet_dictInsert_self s.var_col a.name done.length, hkeq]
    have hd₄ : ((done ++ [a.name]) ++ rest.map AddVarArgs.name).Nodup := by
      simpa using h₄
    obtain ⟨hr₁, hr₂, hr₃⟩ := ih (s.add_var a.obj a.lb a.ub a.var_type a.name)
      (done ++ [a.name]) hd₁ hd₂ hd₃ hd₄
    rw [hstep]
    refine ⟨by simpa using hr₁,
      by rw [hr₂, List.length_append, List.length_cons, List.length_cons,
        List.length_nil]; omega, ?_⟩
    intro k nm hk
    apply hr₃ k nm
    simpa using hk

/-- C7: for a sequence of `add_var` calls with pairwise-distinct names on
a freshly constructed adapter, `var_get_name` at column `k` returns the
k-th added name and `var_get_index` of the k-th added name returns `k`. -/
theorem var_name_index_insertion_order (nm₀ : String) (sense : Sense)
    (s₀ : SolverHighs) (l : List AddVarArgs) (k : Nat) (nm : String)
    (hinit : SolverHighs.init true nm₀ sense = .ok s₀)
    (hnodup : (l.map AddVarArgs.name).Nodup)
    (hk : (l.map AddVarArgs.name)[k]? = some nm) :
    (runAddVars s₀ l).var_get_name k = some nm ∧
    (runAddVars s₀ l).var_get_index nm = some k := by
  obtain ⟨h₁, h₂, _, _, h₅, _⟩ := init_ok_shape true nm₀ sense s₀ hinit
  have hnc : s₀.num_cols = ([] : List String).length := by
    simp [SolverHighs.num_cols, Highs_getNumCol, h₅]
  have hdict : ∀ (k : Nat) (nm : String), ([] : List String)[k]? = some nm →
      dictGet s₀.var_col nm = some k := by intro k nm hk; simp at hk
  obtain ⟨hr₁, _, hr₃⟩ := runAddVars_invariant l s₀ [] h₁ hnc hdict (by simpa using hnodup)
  constructor
  · rw [SolverHighs.var_get_name, hr₁]
    simpa using hk
  · exact hr₃ k nm (by simpa using hk)

theorem colCost_changeColCost_self (h : Highs) (j : Nat) (q : ℚ)
    (hj : j < h.cols.length) : colCost (Highs_changeColCost h j q) j = q := by
  rcases hc : h.cols[j]? with _ | c
  · rw [List.getElem?_eq_none_iff] at hc; omega
  · simp [Highs_changeColCost, hc, colCost, List.getElem?_set_self', Option.map_map]

theorem colCost_changeColCost_ne (h : Highs) (j i : Nat) (q : ℚ) (hij : i ≠ j) :
    colCost (Highs_changeColCost h j q) i = colCost h i := by
  rcases hc : h.cols[j]? with _ | c
  · simp [Highs_changeColCost, hc]
  · simp [Highs_changeColCost, hc, colCost, List.getElem?_set_ne (fun he => hij he.symm)]

theorem writeCosts_cons (h : Highs) (p : Nat × ℚ) (rest : List (Nat × ℚ)) :
    writeCosts h (p :: rest) = writeCosts (Highs_changeColCost h p.1 p.2) rest := rfl

theorem cols_length_writeCosts (l : List (Nat × ℚ)) : ∀ h : Highs,
    (writeCosts h l).cols.length = h.cols.length := by
  induction l with
  | nil => intro h; rfl
  | cons p rest ih =>
    intro h
    rw [writeCosts_cons, ih, cols_length_changeColCost]

theorem colCost_writeCosts_not_mem (l : List (Nat × ℚ)) : ∀ (h : Highs) (j : Nat),
    j ∉ l.map Prod.fst → colCost (writeCosts h l) j = colCost h j := by
  induction l with
  | nil => intro h j _; rfl
  | cons p rest ih =>
    intro h j hj
    simp only [List.map_cons, List.mem_cons] at hj
    push_neg at hj
    rw [writeCosts_cons, ih _ j hj.2, colCost_changeColCost_ne h p.1 j p.2 hj.1]

theorem colCost_writeCosts_mem (l : List (Nat × ℚ)) : ∀ (h : Highs) (j : Nat) (c : ℚ),
    (l.map Prod.fst).Nodup → (j, c) ∈ l → j < h.cols.length →
    colCost (writeCosts h l) j = c := by
  induction l with
  | nil => intro h j c _ hmem _; simp at hmem
  | cons p rest ih =>
    intro h j c hnd hmem hj
    rw [List.map_cons, List.nodup_cons] at hnd
    rcases List.mem_cons.mp hmem with he | hrest
    · have hp1 : p.1 = j := by rw [← he]
      have hnot : j ∉ rest.map Prod.fst := hp1 ▸ hnd.1
      rw [writeCosts_cons, colCost_writeCosts_not_mem rest _ j hnot, hp1,
        colCost_changeColCost_self h j p.2 hj]
      rw [← he]
    · have hjk : j ≠ p.1 := by
        intro he
        exact hnd.1 (he ▸ List.mem_map.mpr ⟨(j, c), hrest, rfl⟩)
      rw [writeCosts_cons]
      refine ih _ j c hnd.2 hrest ?_
      rw [cols_length_changeColCost]
      exact hj

theorem lookup_eq_none_of_not_mem_keys (l : List (Nat × ℚ)) (j : Nat)
    (hj : j ∉ l.map Prod.fst) : l.lookup j = none := by
  induction l with
  | nil => rfl
  | cons p rest ih =>
    simp only [List.map_cons, List.mem_cons] at hj
    push_neg at hj
    rcases p with ⟨k, v⟩
    rw [List.lookup_cons]
    have : (j == k) = false := by simpa using fun he => hj.1 he
    rw [this]
    exact ih hj.2

theorem lookup_eq_some_of_mem_nodup (l : List (Nat × ℚ)) (j : Nat) (c : ℚ)
    (hnd : (l.map Prod.fst).Nodup) (hmem : (j, c) ∈ l) : l.lookup j = some c := by
  induction l with
  | nil => simp at hmem
  | cons p rest ih =>
    rw [List.map_cons, List.nodup_cons] at hnd
    rcases p with ⟨k, v⟩
    rw [List.lookup_cons]
    rcases List.mem_cons.mp hmem with he | hrest
    · have hk : j = k := congrArg Prod.fst he
      have hv : c = v := congrArg Prod.snd he
      rw [show (j == k) = true by simpa using hk]
      simp [hv]
    · have hjk : j ≠ k := by
        intro he
        exact hnd.1 (he ▸ List.mem_map.mpr ⟨(j, c), hrest, rfl⟩)
      rw [show (j == k) = false by simpa using hjk]
      exact ih hnd.2 hrest

theorem lookup_append_some (l₁ l₂ : List (Nat × ℚ)) (j : Nat) (v : ℚ)
    (h : l₁.lookup j = some v) : (l₁ ++ l₂).lookup j = some v := by
  induction l₁ with
  | nil => simp [List.lookup] at h
  | cons p rest ih =>
    rcases p with ⟨k, w⟩
    rw [List.lookup_cons] at h
    rw [List.cons_append, List.lookup_cons]
    rcases hjk : (j == k) with _ | _ <;> rw [hjk] at h
    exacts [ih h, h]

theorem lookup_append_none (l₁ l₂ : List (Nat × ℚ)) (j : Nat)
    (h : l₁.lookup j = none) : (l₁ ++ l₂).lookup j = l₂.lookup j := by
  induction l₁ with
  | nil => simp
  | cons p rest ih =>
    rcases p with ⟨k, w⟩
    rw [List.lookup_cons] at h
    rw [List.cons_append, List.lookup_cons]
    rcases hjk : (j == k) with _ | _ <;> rw [hjk] at h
    · exact ih h
    · exact absurd h (by simp)

theorem lookup_filterMap_range (g : Nat → ℚ) : ∀ (n : Nat) (j : Nat),
    ((List.range n).filterMap
      (fun i => if g i = 0 then none else some (i, g i))).lookup j =
    if j < n ∧ g j ≠ 0 then some (g j) else none := by
  intro n
  induction n with
  | zero => intro j; simp
  | succ m ih =>
    intro j
    rw [List.range_succ, List.filterMap_append]
    by_cases hgm : g m = 0
    · have hlast : ([m].filterMap (fun i => if g i = 0 then none else some (i, g i))) = [] := by
        simp [hgm]
      rw [hlast, List.append_nil, ih j]
      by_cases hjm : j = m
      · subst hjm
        simp [hgm]
      · have : (j < m + 1 ∧ g j ≠ 0) ↔ (j < m ∧ g j ≠ 0) := by
          constructor <;> rintro ⟨h₁, h₂⟩ <;> exact ⟨by omega, h₂⟩
        rw [if_congr this rfl rfl]
    · have hlast : ([m].filterMap (fun i => if g i = 0 then none else some (i, g i))) =
          [(m, g m)] := by simp [hgm]
      rw [hlast]
      by_cases hcond : j < m ∧ g j ≠ 0
      · rw [lookup_append_some _ _ j (g j) (by rw [ih j, if_pos hcond])]
        rw [if_pos ⟨by omega, hcond.2⟩]
      · rw [lookup_append_none _ _ j (by rw [ih j, if_neg hcond])]
        by_cases hjm : j = m
        · subst hjm
          rw [List.lookup_cons]
          simp [hgm]
        · rw [List.lookup_cons, show (j == m) = false by simpa using hjm]
          have : ¬(j < m + 1 ∧ g j ≠ 0) := by
            rintro ⟨h₁, h₂⟩
            exact hcond ⟨by omega, h₂⟩
          simp [this]

theorem costs_getD (h : Highs) (i : Nat) :
    (Highs_getColsByRange_costs h).getD i 0 = colCost h i := by
  rw [Highs_getColsByRange_costs, colCost, List.getD_eq_getElem?_getD,
    List.getElem?_map]

/-- The native state after a successful `set_objective`: the cost loop,
then the offset, then the sense `v`. -/
def objApplied (s : SolverHighs) (e : LinExpr) (v : Int) : Highs :=
  Highs_changeObjectiveSense
    (Highs_changeObjectiveOffset (writeCosts s.hmodel e.expr) e.const) v

theorem set_objective_ok (s : SolverHighs) (e : LinExpr) (v : Int)
    (hv : senseToNative e.sense = some v) :
    s.set_objective e = some { s with hmodel := objApplied s e v } := by
  simp [SolverHighs.set_objective, SolverHighs.set_objective_const,
    SolverHighs.set_objective_sense, hv]
  rfl

theorem set_objective_none (s : SolverHighs) (e : LinExpr)
    (hv : senseToNative e.sense = none) : s.set_objective e = none := by
  simp [SolverHighs.set_objective, SolverHighs.set_objective_const,
    SolverHighs.set_objective_sense, hv]

/-- C10: `set_objective` writes only the costs of the columns mentioned
in the expression's coefficient dict — every other column's cost in the
native model is unchanged by the call (so a nonzero cost set by an
earlier objective and omitted from a later one persists). -/
theorem set_objective_frame_on_costs (s s₁ : SolverHighs) (e : LinExpr) (j : Nat)
    (hj : j ∉ e.expr.map Prod.fst) (hok : s.set_objective e = some s₁) :
    colCost s₁.hmodel j = colCost s.hmodel j := by
  rcases hv : senseToNative e.sense with _ | v
  · rw [set_objective_none s e hv] at hok
    exact absurd hok (by simp)
  · rw [set_objective_ok s e v hv] at hok
    have hs₁ : s₁ = { s with hmodel := objApplied s e v } := by
      injection hok with hh
      exact hh.symm
    rw [hs₁]
    exact colCost_writeCosts_not_mem e.expr s.hmodel j hj

theorem round_trip_core (s : SolverHighs) (e : LinExpr) (v : Int)
    (hv : senseToNative e.sense = some v)
    (hvb : senseFromNative v = some e.sense)
    (hnodup : (e.expr.map Prod.fst).Nodup)
    (hvalid : ∀ p ∈ e.expr, p.1 < s.num_cols)
    (hclean : ∀ j, j < s.num_cols → j ∉ e.expr.map Prod.fst →
      colCost s.hmodel j = 0) :
    ∃ (s₁ : SolverHighs) (e₁ : LinExpr), s.set_objective e = some s₁ ∧
      s₁.get_objective = some e₁ ∧ (∀ j, e₁.coef j = e.coef j) ∧
      e₁.const = e.const ∧ e₁.sense = e.sense := by
  have hok := set_objective_ok s e v hv
  set s₁ : SolverHighs := { s with hmodel := objApplied s e v } with hs₁
  have hn : s₁.num_cols = s.num_cols := by
    show (writeCosts s.hmodel e.expr).cols.length = s.hmodel.cols.length
    exact cols_length_writeCosts e.expr s.hmodel
  have hcols : ∀ j, colCost s₁.hmodel j = colCost (writeCosts s.hmodel e.expr) j :=
    fun j => rfl
  have hget : s₁.get_objective = some
      ⟨(List.range s₁.num_cols).filterMap (fun i =>
          if colCost s₁.hmodel i = 0 then none
          else some (i, colCost s₁.hmodel i)),
        s₁.get_objective_const, e.sense⟩ := by
    have hos : s₁.get_objective_sense = some e.sense := hvb
    simp only [SolverHighs.get_objective, hos, costs_getD]
    rfl
  refine ⟨s₁, _, hok, hget, ?_, rfl, rfl⟩
  intro j
  show ((((List.range s₁.num_cols).filterMap (fun i =>
      if colCost s₁.hmodel i = 0 then none
      else some (i, colCost s₁.hmodel i))).lookup j).getD 0) = e.coef j
  rw [lookup_filterMap_range (fun i => colCost s₁.hmodel i) s₁.num_cols j]
  by_cases hjn : j < s.num_cols
  · have hcost : colCost s₁.hmodel j = e.coef j := by
      rw [hcols j]
      by_cases hmem : j ∈ e.expr.map Prod.fst
      · obtain ⟨p, hp, hpj⟩ := List.mem_map.mp hmem
        have hpmem : (j, p.2) ∈ e.expr := by
          have : p = (j, p.2) := by
            rcases p with ⟨p₁, p₂⟩
            simp at hpj
            rw [hpj]
          rw [← this]
          exact hp
        have hjlen : j < s.hmodel.cols.length := hjn
        rw [colCost_writeCosts_mem e.expr s.hmodel j p.2 hnodup hpmem hjlen]
        rw [LinExpr.coef, lookup_eq_some_of_mem_nodup e.expr j p.2 hnodup hpmem]
        rfl
      · rw [colCost_writeCosts_not_mem e.expr s.hmodel j hmem,
          hclean j hjn hmem, LinExpr.coef,
          lookup_eq_none_of_not_mem_keys e.expr j hmem]
        rfl
    by_cases hz : colCost s₁.hmodel j = 0
    · rw [if_neg (by rintro ⟨_, hnz⟩; exact hnz hz)]
      rw [← hcost, hz]
      rfl
    · rw [if_pos ⟨by omega, hz⟩]
      rw [hcost]
      rfl
  · rw [if_neg (by rintro ⟨hlt, _⟩; rw [hn] at hlt; omega)]
    have hnot : j ∉ e.expr.map Prod.fst := by
      intro hmem
      obtain ⟨p, hp, hpj⟩ := List.mem_map.mp hmem
      exact hjn (hpj ▸ hvalid p hp)
    rw [LinExpr.coef, lookup_eq_none_of_not_mem_keys e.expr j hnot]

/-- C3 amended: for an adapter state in which every column not mentioned
in the expression carries zero cost and every mentioned variable's index
is a valid column, setting the objective (minimize or maximize sense)
and reading it back reproduces the coefficients on every variable, the
constant, and the sense. -/
theorem objective_round_trip_on_clean_columns (s : SolverHighs) (e : LinExpr)
    (hsense : e.sense = .minimize ∨ e.sense = .maximize)
    (hnodup : (e.expr.map Prod.fst).Nodup)
    (hvalid : ∀ p ∈ e.expr, p.1 < s.num_cols)
    (hclean : ∀ j, j < s.num_cols → j ∉ e.expr.map Prod.fst →
      colCost s.hmodel j = 0) :
    ∃ (s₁ : SolverHighs) (e₁ : LinExpr), s.set_objective e = some s₁ ∧
      s₁.get_objective = some e₁ ∧ (∀ j, e₁.coef j = e.coef j) ∧
      e₁.const = e.const ∧ e₁.sense = e.sense := by
  rcases hsense with h | h
  · exact round_trip_core s e 1 (by rw [h]; rfl) (by rw [h]; rfl) hnodup hvalid hclean
  · exact round_trip_core s e (-1) (by rw [h]; rfl) (by rw [h]; rfl) hnodup hvalid hclean

/-! ### Concrete example states (used by witnesses and counterexamples) -/

/-- A freshly constructed adapter (`SolverHighs.init true "m" minimize`). -/
def exFresh : SolverHighs :=
  { hmodel := Highs_create, name := "m", var_name := [], var_col := [],
    cons_name := [], cons_col := [] }

/-- Two variables and one ≤ constraint, as in the spec's §8 example. -/
def exOps : List Op :=
  [.addVar 2 (.num 0) .posInf .continuous "x",
   .addVar 3 (.num 0) .posInf .integer "y",
   .addConstr ⟨[(0, 1), (1, 1)], -10, .le⟩ "c"]

/-- The adapter after running `exOps` on `exFresh`. -/
def exRun : SolverHighs := (runOps exFresh exOps).getD exFresh

/-- One integer variable, for the relaxation witness. -/
def exSInt : SolverHighs := exFresh.add_var 0 (.num 0) .posInf .integer "x"

/-- One variable whose `add_var` objective coefficient is 5, so column 0
carries cost 5 (a reachable state with a nonzero cost). -/
def exC3s : SolverHighs := exFresh.add_var 5 (.num 0) .posInf .continuous "x"

/-- An objective expression mentioning no variable at all. -/
def exC3e : LinExpr := ⟨[], 3, .minimize⟩

/-- C3 counterexample: on the reachable state `exC3s` (column 0 has cost
5), setting the objective `0 variables + 3, minimize` and reading it back
yields the expression `5*x0 + 3`, whose coefficient on variable 0 differs
from the one that was set — refuting the claim's quantification over
every adapter state. -/
theorem objective_round_trip_counterexample :
    (exC3s.set_objective exC3e).bind SolverHighs.get_objective =
      some ⟨[(0, 5)], 3, .minimize⟩ ∧
    (⟨[(0, 5)], 3, .minimize⟩ : LinExpr).coef 0 ≠ exC3e.coef 0 := by
  constructor
  · rfl
  · decide

/-- A glob outcome with exactly one match. -/
def exGlobOne : String → List String := fun _ => ["libhighs.so"]

/-- A glob outcome with no match. -/
def exGlobNone : String → List String := fun _ => []

/-- A `dlopen` outcome that fails. -/
def exDlFail : String → Except String Unit := fun _ => .error "dlopen failed"

/-- Witness for C5 at concrete environments: a non-linux platform, a
unique glob match, an empty glob, a failing dlopen, a failing import of
highspy recorded as `has_highs = false`, and the resulting construction
failure. -/
theorem library_load_failure_handling_witness :
    resolveLibfile none (.ok "/sp/highspy") "win32" exGlobOne =
      .error ("win32" ++ " not supported!") ∧
    resolveLibfile none (.ok "/sp/highspy") "linux" exGlobOne = .ok "libhighs.so" ∧
    resolveLibfile none (.ok "/sp/highspy") "linux" exGlobNone =
      .error "ValueError: expected exactly one matching library" ∧
    libraryLoadBody (some "libhighs.so") (.ok "/sp/highspy") "linux" exGlobOne
      exDlFail = .error "dlopen failed" ∧
    has_highs_flag (libraryLoadBody none (.error "ImportError: highspy") "linux"
      exGlobOne exDlFail) = false ∧
    SolverHighs.init (has_highs_flag (libraryLoadBody none
      (.error "ImportError: highspy") "linux" exGlobOne exDlFail)) "m" .minimize =
      .error (.fileNotFound highsNotFoundMsg) :=
  ⟨library_load_failure_handling.2.2.1 "/sp/highspy" "win32" exGlobOne (by decide),
   library_load_failure_handling.2.2.2.1 "/sp/highspy" "linux" "libhighs.so"
     exGlobOne (by decide) rfl,
   library_load_failure_handling.2.2.2.2.1 "/sp/highspy" "linux" exGlobNone
     (by decide) (by decide),
   library_load_failure_handling.2.2.2.2.2.1 "libhighs.so" "dlopen failed" "linux"
     (.ok "/sp/highspy") exGlobOne exDlFail rfl,
   library_load_failure_handling.2.2.2.2.2.2.1 none (.error "ImportError: highspy")
     "linux" exGlobOne exDlFail "ImportError: highspy" rfl,
   library_load_failure_handling.2.2.2.2.2.2.2.1 (libraryLoadBody none
     (.error "ImportError: highspy") "linux" exGlobOne exDlFail) "m" .minimize rfl⟩

/-- Witness for C1 at the spec's §8 example sequence. -/
theorem registry_length_matches_native_counts_witness :
    exRun.var_name.length = exRun.num_cols ∧
    exRun.cons_name.length = exRun.num_rows :=
  registry_length_matches_native_counts "m" .minimize exFresh exRun exOps rfl rfl

/-- Witness for C2 at three concrete constraints with constant 5. -/
theorem add_constr_row_bounds_witness :
    ((exFresh.add_constr ⟨[(0, 2)], 5, .eq⟩ "c").map (fun t => t.hmodel.rows) =
      some (exFresh.hmodel.rows ++ [⟨.num (-(5 : ℚ)), .num (-(5 : ℚ)), [0], [2]⟩])) ∧
    ((exFresh.add_constr ⟨[(0, 2)], 5, .le⟩ "c").map (fun t => t.hmodel.rows) =
      some (exFresh.hmodel.rows ++ [⟨.negInf, .num (-(5 : ℚ)), [0], [2]⟩])) ∧
    ((exFresh.add_constr ⟨[(0, 2)], 5, .ge⟩ "c").map (fun t => t.hmodel.rows) =
      some (exFresh.hmodel.rows ++ [⟨.num (-(5 : ℚ)), .posInf, [0], [2]⟩])) :=
  ⟨(add_constr_row_bounds exFresh ⟨[(0, 2)], 5, .eq⟩ "c").1 rfl,
   (add_constr_row_bounds exFresh ⟨[(0, 2)], 5, .le⟩ "c").2.1 rfl,
   (add_constr_row_bounds exFresh ⟨[(0, 2)], 5, .ge⟩ "c").2.2 rfl⟩

/-- Witness for C4 at a model with one integer column. -/
theorem relax_continuous_and_idempotent_witness :
    (⟨.num 0, .posInf, 0, kHighsVarTypeContinuous⟩ : Col).integrality =
      kHighsVarTypeContinuous ∧
    (exSInt.relax).relax = exSInt.relax :=
  ⟨(relax_continuous_and_idempotent exSInt).1
      ⟨.num 0, .posInf, 0, kHighsVarTypeContinuous⟩ (by decide),
   (relax_continuous_and_idempotent exSInt).2⟩

/-- Witness for C7: after adding "x" then "y", index 1 holds "y". -/
theorem var_name_index_insertion_order_witness :
    (runAddVars exFresh [⟨2, .num 0, .posInf, .continuous, "x"⟩,
        ⟨3, .num 0, .posInf, .integer, "y"⟩]).var_get_name 1 = some "y" ∧
    (runAddVars exFresh [⟨2, .num 0, .posInf, .continuous, "x"⟩,
        ⟨3, .num 0, .posInf, .integer, "y"⟩]).var_get_index "y" = some 1 :=
  var_name_index_insertion_order "m" .minimize exFresh
    [⟨2, .num 0, .posInf, .continuous, "x"⟩, ⟨3, .num 0, .posInf, .integer, "y"⟩]
    1 "y" rfl (by decide) rfl

/-- Witness for C8: re-adding the name "x". -/
theorem add_var_duplicate_name_witness :
    (exC3s.add_var 3 (.num 0) .posInf .continuous "x").num_cols =
      exC3s.num_cols + 1 ∧
    (exC3s.add_var 3 (.num 0) .posInf .continuous "x").var_name =
      exC3s.var_name ++ ["x"] ∧
    (exC3s.add_var 3 (.num 0) .posInf .continuous "x").var_name.count "x" =
      exC3s.var_name.count "x" + 1 ∧
    2 ≤ (exC3s.add_var 3 (.num 0) .posInf .continuous "x").var_name.count "x" ∧
    (exC3s.add_var 3 (.num 0) .posInf .continuous "x").var_get_index "x" =
      some exC3s.num_cols :=
  add_var_duplicate_name exC3s 3 (.num 0) .posInf .continuous "x" (by decide)

/-- Two zero-cost columns, for the round-trip witness. -/
def exRT : SolverHighs :=
  (exFresh.add_var 0 (.num 0) .posInf .continuous "x").add_var 0 (.num 0)
    .posInf .continuous "y"

/-- The spec's §8 objective `2*x0 + 3*x1 + 4`, minimize. -/
def exRTe : LinExpr := ⟨[(0, 2), (1, 3)], 4, .minimize⟩

/-- Witness for the amended C3 on a clean two-column adapter. -/
theorem objective_round_trip_on_clean_columns_witness :
    ∃ (s₁ : SolverHighs) (e₁ : LinExpr), exRT.set_objective exRTe = some s₁ ∧
      s₁.get_objective = some e₁ ∧ (∀ j, e₁.coef j = exRTe.coef j) ∧
      e₁.const = exRTe.const ∧ e₁.sense = exRTe.sense :=
  objective_round_trip_on_clean_columns exRT exRTe (Or.inl rfl) (by decide)
    (by decide)
    (by
      intro j hj hnot
      exfalso
      apply hnot
      have hj2 : j < 2 := hj
      interval_cases j <;> decide)

/-- Witness for C10: a later objective mentioning only column 0 leaves
column 1's cost unchanged. -/
theorem set_objective_frame_on_costs_witness :
    colCost ((exRT.set_objective ⟨[(0, 5)], 0, .minimize⟩).getD exRT).hmodel 1 =
      colCost exRT.hmodel 1 :=
  set_objective_frame_on_costs exRT
    ((exRT.set_objective ⟨[(0, 5)], 0, .minimize⟩).getD exRT)
    ⟨[(0, 5)], 0, .minimize⟩ 1 (by decide) rfl

end PyMipHighs
